import Mathlib

/-!
# curl_util: parameter extraction and the web-call orchestrator

A shallow embedding of `src/curl_util.cpp`.

* A `std::string` is a list of characters (`Str`).
* `size_t` values are natural numbers; the two arithmetic operations of
  `getURLParam` are taken modulo `2 ^ 64`, as the machine does.
* `string::npos` is rendered as `none`; an exception that leaves a function is
  rendered as the result `none` of that function.
* The build-time toggles `OFFLINE` and `SAVE_ONLINE_RESPONSES` are two boolean
  parameters of `callWebServer`.
* The outside world of one call is explicit: the files that can be opened, the
  two standard streams, and what the transport does during the call.
-/

set_option autoImplicit false

namespace CurlUtil

/-- A C++ `std::string`. -/
abbrev Str := List Char

/-- Number of values of `size_t`. -/
def SIZE_MOD : Nat := 2 ^ 64

/-- The libcurl success code `CURLE_OK`. -/
def CURLE_OK : Nat := 0

/-- The libcurl code `CURLE_WRITE_ERROR`, reported by a transfer when the write
callback does not return the number of bytes it was handed. -/
def CURLE_WRITE_ERROR : Nat := 23

/-! ## The parts of `std::string` that the code uses -/

/-- Scan of `std::string::find`: `s` is the text from index `i` on; the result
is the lowest index at which `key` starts. -/
def findFrom (key : Str) : Str → Nat → Option Nat
  | [], i => if key.isPrefixOf [] then some i else none
  | c :: cs, i => if key.isPrefixOf (c :: cs) then some i else findFrom key cs (i + 1)

/-- `s.find(key, pos)`: the lowest index `p ≥ pos` at which `key` occurs in
`s`, `none` (for `npos`) when there is none. -/
def find (s key : Str) (pos : Nat) : Option Nat :=
  if pos ≤ s.length then findFrom key (s.drop pos) pos else none

/-- `s.substr(start, len)`: throws `out_of_range` (here `none`) when
`start > s.size()`, otherwise the at most `len` characters from `start` on. -/
def substr (s : Str) (start len : Nat) : Option Str :=
  if start > s.length then none else some ((s.drop start).take len)

/-- `getline(stream, line)` on the unread rest of a stream: fails (`none`) when
nothing is left, otherwise yields the characters before the next `'\n'` and
the stream after that `'\n'`. -/
def getline : Str → Option (Str × Str)
  | [] => none
  | c :: cs =>
    some ((c :: cs).takeWhile (fun x => x != '\n'),
          ((c :: cs).dropWhile (fun x => x != '\n')).drop 1)

/-! ## `curl_util.cpp` -/

/-- `CURL_callback(contents, size, nmemb, output)`: appends the first
`size * nmemb` characters of `contents` to `output` and returns that count
together with the new `output`. -/
def CURL_callback (contents : Str) (size nmemb : Nat) (output : Str) : Nat × Str :=
  let total_size := size * nmemb
  (total_size, output ++ contents.take total_size)

/-- `getURLParam(url, key)`; `none` stands for an exception leaving the
function. -/
def getURLParam (url key : Str) : Option Str :=
  match find url key 0 with
  | none => some "-1".toList
  | some pos =>
    match find url "&".toList pos with
    | none => some "-1".toList
    | some endpos =>
      let start := (pos + key.length) % SIZE_MOD
      let len := (endpos + SIZE_MOD - start) % SIZE_MOD
      substr url start len

/-- The world outside one call of `callWebServer`. -/
structure World where
  /-- Content of each file that can be opened for reading, by name. -/
  files : Str → Option Str
  /-- Whether a file of this name can be opened for writing. -/
  writable : Str → Bool
  /-- Everything written to `cout` so far. -/
  cout : Str
  /-- Everything written to `cerr` so far. -/
  cerr : Str

/-- What the transport does during one call: the return codes of the three
`curl_easy_setopt` calls, the body chunks that `curl_easy_perform` hands to the
write callback, in order, and the code it reports afterwards. -/
structure Transfer where
  rc1 : Nat
  rc2 : Nat
  rc3 : Nat
  chunks : List Str
  rc : Nat

/-- What a call of `callWebServer` leaves behind. -/
structure Outcome where
  ret : Bool
  response : Str
  world : World

/-- `curl_easy_perform` with the write callback `CURL_callback` and the write
target `response`: every chunk is handed to the callback as `nmemb` elements
of size 1; a callback result other than that count aborts the transfer. -/
def curl_easy_perform : List Str → Nat → Str → Nat × Str
  | [], rc, response => (rc, response)
  | chunk :: rest, rc, response =>
    let r := CURL_callback chunk 1 chunk.length response
    if r.1 = chunk.length then curl_easy_perform rest rc r.2
    else (CURLE_WRITE_ERROR, r.2)

/-- The loop `while (getline(infile, line)) { response += line; response += '\n'; }`,
with a bound on the number of iterations; `none` when the bound is reached. -/
def readLines : Nat → Str → Str → Option Str
  | 0, _, _ => none
  | fuel + 1, infile, response =>
    match getline infile with
    | none => some response
    | some (line, rest) => readLines fuel rest ((response ++ line) ++ ['\n'])

/-- The route, the stop id and the file name computed in the `OFFLINE` branch
(lines 100-105), in this order. -/
def offlineFilename (url : Str) : Option (Str × Str × Str) :=
  match getURLParam url "rt=".toList with
  | none => none
  | some route =>
    match getURLParam url "stpid=".toList with
    | none => none
    | some stopid =>
      let filename := "cta-response-route-".toList
      let filename := filename ++ route ++ "-stopid-".toList
      let filename := filename ++ stopid ++ ".cta".toList
      some (route, stopid, filename)

/-- The file name computed in the `SAVE_ONLINE_RESPONSES` branch
(lines 155-160). -/
def saveFilename (url : Str) : Option Str :=
  match getURLParam url "rt=".toList with
  | none => none
  | some route =>
    match getURLParam url "stpid=".toList with
    | none => none
    | some stopid =>
      let filename := "cta-response-route-".toList
      let filename := filename ++ route ++ "-stopid-".toList
      let filename := filename ++ stopid ++ ".cta".toList
      some filename

/-- The three `cout` lines of the `OFFLINE` branch, each ended by `endl`. -/
def offlineDiagnostic (route stopid : Str) : Str :=
  "**ERROR: in callWebServer, we are running offline...".toList ++ ['\n']
  ++ ("**ERROR: you called with rt=".toList ++ route ++ ",stpid=".toList ++ stopid ++ ['\n'])
  ++ ("**ERROR: no data is available for this route/stop".toList ++ ['\n'])

/-- `callWebServer(curl, url, response)`. `OFFLINE` and `SAVE_ONLINE_RESPONSES`
are the build-time toggles, `t` is what the handle `curl` does during the call,
`w` the world before the call. `none` stands for an exception leaving the
function. -/
def callWebServer (OFFLINE SAVE_ONLINE_RESPONSES : Bool) (w : World) (t : Transfer)
    (url response : Str) : Option Outcome :=
  if OFFLINE then
    match offlineFilename url with
    | none => none
    | some (route, stopid, filename) =>
      match w.files filename with
      | none =>
        some { ret := false, response := response,
               world := { w with cout := w.cout ++ offlineDiagnostic route stopid } }
      | some content =>
        match readLines (content.length + 1) content [] with
        | none => none
        | some response => some { ret := true, response := response, world := w }
  else
    if t.rc1 ≠ CURLE_OK ∨ t.rc2 ≠ CURLE_OK ∨ t.rc3 ≠ CURLE_OK then
      some { ret := false, response := response, world := w }
    else
      let r := curl_easy_perform t.chunks t.rc response
      if r.1 ≠ CURLE_OK then
        some { ret := false, response := r.2, world := w }
      else if SAVE_ONLINE_RESPONSES then
        match saveFilename url with
        | none => none
        | some filename =>
          if w.writable filename then
            some { ret := true, response := r.2,
                   world := { w with files := fun f =>
                     if f = filename then some (r.2 ++ ['\n']) else w.files f } }
          else
            some { ret := true, response := r.2, world := w }
      else
        some { ret := true, response := r.2, world := w }

/-- A world with no files, in which every file can be created. -/
def emptyWorld : World :=
  { files := fun _ => none, writable := fun _ => true, cout := [], cerr := [] }

/-- A transfer in which every libcurl call succeeds and the given chunks
arrive. -/
def okTransfer (chunks : List Str) : Transfer :=
  { rc1 := CURLE_OK, rc2 := CURLE_OK, rc3 := CURLE_OK, chunks := chunks, rc := CURLE_OK }

/-- Specification of the replayed text: `c` itself when `c` is empty or ends in
a newline, `c` followed by one newline otherwise. -/
def withFinalNewline (c : Str) : Str :=
  if c = [] ∨ c.getLast? = some '\n' then c else c ++ ['\n']

/-- The URL of the scenarios of the specification. -/
def scenarioURL : Str := "http://host/api?key=X&rt=20&stpid=456&format=json".toList

/-- The cache file name of the scenarios of the specification. -/
def scenarioFile : Str := "cta-response-route-20-stopid-456.cta".toList

/-- A world whose only file is `scenarioFile`, holding one line of JSON. -/
def scenarioWorld : World :=
  { files := fun f => if f = scenarioFile then some "\x7b\"a\":1\x7d\n".toList else none,
    writable := fun _ => true, cout := [], cerr := [] }

/-- Specification-level first occurrence: `key` starts at index `pos` of `url`
and at no lower index. -/
def FirstOccurrence (url key : Str) (pos : Nat) : Prop :=
  pos ≤ url.length ∧ key <+: url.drop pos ∧ ∀ j, j < pos → ¬ key <+: url.drop j

/-- Whether an index is the first occurrence can be computed. -/
instance (url key : Str) (pos : Nat) : Decidable (FirstOccurrence url key pos) := by
  unfold FirstOccurrence
  infer_instance

/-! ## Facts about `find` -/

/-- What `findFrom` computes: the offset of the first occurrence, or the
absence of any occurrence. -/
theorem findFrom_spec (key : Str) : ∀ (s : Str) (i : Nat),
    (∃ k, findFrom key s i = some (i + k) ∧ k ≤ s.length ∧ key <+: s.drop k ∧
        ∀ j, j < k → ¬ key <+: s.drop j) ∨
    (findFrom key s i = none ∧ ∀ j, ¬ key <+: s.drop j) := by
  intro s
  induction s with
  | nil =>
    intro i
    by_cases h : key.isPrefixOf [] = true
    · left
      refine ⟨0, ?_, by simp, ?_, ?_⟩
      · simp [findFrom, h]
      · simpa using List.isPrefixOf_iff_prefix.mp h
      · intro j hj; omega
    · right
      refine ⟨by simp [findFrom, h], ?_⟩
      intro j hj
      apply h
      apply List.isPrefixOf_iff_prefix.mpr
      simpa using hj
  | cons c cs ih =>
    intro i
    by_cases h : key.isPrefixOf (c :: cs) = true
    · left
      refine ⟨0, ?_, by simp, ?_, ?_⟩
      · simp [findFrom, h]
      · simpa using List.isPrefixOf_iff_prefix.mp h
      · intro j hj; omega
    · have hne : ¬ key <+: c :: cs := fun hp => h (List.isPrefixOf_iff_prefix.mpr hp)
      rcases ih (i + 1) with ⟨k, hk, hlen, hpre, hmin⟩ | ⟨hnone, hall⟩
      · left
        refine ⟨k + 1, ?_, by simpa using hlen, by simpa using hpre, ?_⟩
        · rw [findFrom, if_neg h, hk]
          congr 1; omega
        · intro j hj
          cases j with
          | zero => simpa using hne
          | succ j => simpa using hmin j (by omega)
      · right
        refine ⟨by rw [findFrom, if_neg h, hnone], ?_⟩
        intro j
        cases j with
        | zero => simpa using hne
        | succ j => simpa using hall j

/-- The index that `find` returns from the start is the first occurrence. -/
theorem find_zero_some {url key : Str} {pos : Nat} (h : find url key 0 = some pos) :
    FirstOccurrence url key pos := by
  unfold find at h
  simp only [Nat.zero_le, if_true, List.drop_zero] at h
  rcases findFrom_spec key url 0 with ⟨k, hk, hlen, hpre, hmin⟩ | ⟨hnone, _⟩
  · rw [hk] at h
    have : 0 + k = pos := Option.some.inj h
    subst this
    simpa [FirstOccurrence] using ⟨hlen, hpre, hmin⟩
  · rw [hnone] at h; cases h

/-- When `find` from the start fails, the key occurs nowhere. -/
theorem find_zero_none {url key : Str} (h : find url key 0 = none) :
    ¬ key <:+: url := by
  unfold find at h
  simp only [Nat.zero_le, if_true, List.drop_zero] at h
  rcases findFrom_spec key url 0 with ⟨k, hk, _⟩ | ⟨_, hall⟩
  · rw [hk] at h; cases h
  · intro hin
    obtain ⟨t, hpre, hsuf⟩ := List.infix_iff_prefix_suffix.mp hin
    obtain ⟨a, rfl⟩ := hsuf
    exact hall a.length (by simpa using hpre)

/-- A first occurrence is what `find` from the start returns. -/
theorem find_zero_of_firstOccurrence {url key : Str} {pos : Nat}
    (h : FirstOccurrence url key pos) : find url key 0 = some pos := by
  obtain ⟨_, hpre, hmin⟩ := h
  unfold find
  simp only [Nat.zero_le, if_true, List.drop_zero]
  rcases findFrom_spec key url 0 with ⟨k, hk, hlen, hpre2, hmin2⟩ | ⟨_, hall⟩
  · rw [hk]
    congr 1
    rcases Nat.lt_trichotomy k pos with hlt | heq | hgt
    · exact absurd hpre2 (hmin k hlt)
    · omega
    · exact absurd hpre (hmin2 pos hgt)
  · exact absurd hpre (hall pos)

/-- An occurrence found from the start lies inside the text. -/
theorem FirstOccurrence.add_length_le {url key : Str} {pos : Nat}
    (h : FirstOccurrence url key pos) : pos + key.length ≤ url.length := by
  obtain ⟨hpos, hpre, _⟩ := h
  have := hpre.length_le
  simp only [List.length_drop] at this
  omega

/-- The text from a first occurrence on starts with the key. -/
theorem FirstOccurrence.drop_eq {url key : Str} {pos : Nat}
    (h : FirstOccurrence url key pos) :
    url.drop pos = key ++ url.drop (pos + key.length) := by
  obtain ⟨_, ⟨t, ht⟩, _⟩ := h
  rw [← List.drop_drop, ← ht, List.drop_left]

/-- Searching for the one-character text `"&"`: the result counts the
characters before the first `'&'`. -/
theorem findFrom_amp : ∀ (s : Str) (i : Nat),
    findFrom "&".toList s i =
      if '&' ∈ s then some (i + (s.takeWhile (fun x => x != '&')).length) else none := by
  intro s
  induction s with
  | nil => intro i; rfl
  | cons c cs ih =>
    intro i
    by_cases hc : c = '&'
    · subst hc
      simp [findFrom, List.isPrefixOf]
    · have h1 : ('&' == c) = false := by simpa using fun h => hc h.symm
      have h2 : (c != '&') = true := by simpa using hc
      have h3 : ('&' ∈ c :: cs) ↔ '&' ∈ cs := by
        simp only [List.mem_cons]
        constructor
        · rintro (h | h)
          · exact absurd h.symm hc
          · exact h
        · exact Or.inr
      rw [findFrom]
      simp only [String.toList, List.isPrefixOf, h1, Bool.false_and, Bool.false_eq_true,
        if_false]
      have := ih (i + 1)
      simp only [String.toList] at this
      rw [this, List.takeWhile_cons, h2]
      simp only [h3, if_true, List.length_cons]
      split
      · congr 1; omega
      · rfl

/-- The search `url.find("&", pos)` for a position inside the text. -/
theorem find_amp (url : Str) (pos : Nat) (hpos : pos ≤ url.length) :
    find url "&".toList pos =
      if '&' ∈ url.drop pos
      then some (pos + ((url.drop pos).takeWhile (fun x => x != '&')).length) else none := by
  unfold find
  rw [if_pos hpos, findFrom_amp]

/-! ## `getURLParam` -/

/-- The start index handed to `substr` never exceeds the length of the URL. -/
theorem start_le_length {url key : Str} {pos : Nat} (h : find url key 0 = some pos) :
    (pos + key.length) % SIZE_MOD ≤ url.length :=
  Nat.le_trans (Nat.mod_le _ _) (find_zero_some h).add_length_le

/-- No exception leaves `getURLParam`: it always yields a string. -/
theorem getURLParam_returns (url key : Str) : ∃ s, getURLParam url key = some s := by
  unfold getURLParam
  cases hf : find url key 0 with
  | none => exact ⟨_, rfl⟩
  | some pos =>
    simp only
    cases find url "&".toList pos with
    | none => exact ⟨_, rfl⟩
    | some endpos =>
      simp only [substr]
      rw [if_neg (Nat.not_lt.mpr (start_le_length hf))]
      exact ⟨_, rfl⟩

/-- When the key has no `'&'` and a `'&'` follows its first occurrence, the
result is the text between the key and that `'&'`. -/
theorem getURLParam_between {url key : Str} {pos : Nat} (hlen : url.length < SIZE_MOD)
    (hfirst : FirstOccurrence url key pos) (hkey : '&' ∉ key)
    (hamp : '&' ∈ url.drop (pos + key.length)) :
    getURLParam url key =
      some ((url.drop (pos + key.length)).takeWhile (fun x => x != '&')) := by
  have hle := hfirst.add_length_le
  have hdrop := hfirst.drop_eq
  have hall : ∀ x ∈ key, (fun x => x != '&') x = true := by
    intro x hx
    have : x ≠ '&' := fun h => hkey (h ▸ hx)
    simpa using this
  have htw : (url.drop pos).takeWhile (fun x => x != '&')
      = key ++ (url.drop (pos + key.length)).takeWhile (fun x => x != '&') := by
    rw [hdrop, List.takeWhile_append_of_pos hall]
  have hmem : '&' ∈ url.drop pos := by
    rw [hdrop]; exact List.mem_append_right _ hamp
  have hm : ((url.drop (pos + key.length)).takeWhile (fun x => x != '&')).length
      ≤ url.length := by
    have h1 := (List.takeWhile_prefix (fun x => x != '&')
      (l := url.drop (pos + key.length))).length_le
    simp only [List.length_drop] at h1
    omega
  unfold getURLParam
  rw [find_zero_of_firstOccurrence hfirst]
  simp only
  rw [find_amp url pos (by omega), if_pos hmem, htw]
  simp only [List.length_append]
  have hs : (pos + key.length) % SIZE_MOD = pos + key.length :=
    Nat.mod_eq_of_lt (by omega)
  rw [hs]
  generalize hmdef :
    ((url.drop (pos + key.length)).takeWhile (fun x => x != '&')).length = m at hm
  have hl : (pos + (key.length + m) + SIZE_MOD - (pos + key.length)) % SIZE_MOD = m := by
    have : pos + (key.length + m) + SIZE_MOD - (pos + key.length) = m + SIZE_MOD := by omega
    rw [this, Nat.add_mod_right]
    exact Nat.mod_eq_of_lt (by omega)
  rw [hl]
  unfold substr
  rw [if_neg (by omega)]
  congr 1
  rw [← hmdef]
  exact (List.prefix_iff_eq_take.mp (List.takeWhile_prefix _)).symm

/-- A key none of whose later characters is `h` cannot straddle the border
between a non-empty text `b` and a text that starts with `h`. -/
theorem prefix_of_prefix_append_cons {h : Char} {rest : Str} :
    ∀ {b key : Str}, b ≠ [] → h ∉ key.tail → key <+: b ++ h :: rest → key <+: b := by
  have aux : ∀ (b ks : Str), h ∉ ks → ks <+: b ++ h :: rest → ks <+: b := by
    intro b
    induction b with
    | nil =>
      intro ks hks hp
      cases ks with
      | nil => exact List.prefix_refl _
      | cons k ks =>
        rw [List.nil_append, List.cons_prefix_cons] at hp
        exact absurd (hp.1 ▸ List.mem_cons_self k ks) hks
    | cons d b ih =>
      intro ks hks hp
      cases ks with
      | nil => exact List.nil_prefix
      | cons k ks =>
        rw [List.cons_append, List.cons_prefix_cons] at hp
        rw [List.cons_prefix_cons]
        exact ⟨hp.1, ih ks (fun hm => hks (List.mem_cons_of_mem _ hm)) hp.2⟩
  intro b key hb hk hp
  cases b with
  | nil => exact absurd rfl hb
  | cons c b =>
    cases key with
    | nil => exact List.nil_prefix
    | cons k ks =>
      rw [List.cons_append, List.cons_prefix_cons] at hp
      rw [List.cons_prefix_cons]
      exact ⟨hp.1, aux b ks hk hp.2⟩

/-- A key that does not occur in `pre` and cannot straddle the border does not
start at any index inside `pre`. -/
theorem not_prefix_drop_of_not_infix {pre key : Str} (h : Char) (rest : Str) {j : Nat}
    (hj : j < pre.length) (hk : h ∉ key.tail) (hpre : ¬ key <:+: pre) :
    ¬ key <+: (pre ++ h :: rest).drop j := by
  intro hp
  rw [List.drop_append_of_le_length (Nat.le_of_lt hj)] at hp
  have hne : pre.drop j ≠ [] := by
    intro hnil
    have := congrArg List.length hnil
    simp only [List.length_drop, List.length_nil] at this
    omega
  exact hpre (List.infix_iff_prefix_suffix.mpr
    ⟨pre.drop j, prefix_of_prefix_append_cons hne hk hp, List.drop_suffix j pre⟩)

/-- The first occurrences of the two keys in a URL `pre ++ "rt=42&stpid=7&" ++ suf`
whose `pre` holds neither key. -/
theorem firstOccurrence_rt (pre suf : Str) (hpre : ¬ "rt=".toList <:+: pre) :
    FirstOccurrence (pre ++ "rt=42&stpid=7&".toList ++ suf) "rt=".toList pre.length := by
  refine ⟨by simp, ?_, ?_⟩
  · rw [List.append_assoc, List.drop_left]
    exact ⟨"42&stpid=7&".toList ++ suf, rfl⟩
  · intro j hj
    rw [List.append_assoc]
    exact not_prefix_drop_of_not_infix 'r' ("t=42&stpid=7&".toList ++ suf)
      hj (by decide) hpre

/-- See `firstOccurrence_rt`. -/
theorem firstOccurrence_stpid (pre suf : Str) (hpre : ¬ "stpid=".toList <:+: pre) :
    FirstOccurrence (pre ++ "rt=42&stpid=7&".toList ++ suf) "stpid=".toList
      (pre.length + 6) := by
  refine ⟨by simp [String.toList], ?_, ?_⟩
  · rw [List.append_assoc, List.drop_append]
    exact ⟨"7&".toList ++ suf, rfl⟩
  · intro j hj
    rw [List.append_assoc]
    by_cases hlt : j < pre.length
    · exact not_prefix_drop_of_not_infix 'r' ("t=42&stpid=7&".toList ++ suf)
        hlt (by decide) hpre
    · obtain ⟨i, rfl⟩ : ∃ i, j = pre.length + i := ⟨j - pre.length, by omega⟩
      have hi : i < 6 := by omega
      rw [List.drop_append]
      show ¬ ['s', 't', 'p', 'i', 'd', '='] <+:
        List.drop i (['r', 't', '=', '4', '2', '&', 's', 't', 'p', 'i', 'd', '=', '7', '&'] ++ suf)
      interval_cases i <;> simp [List.cons_prefix_cons]

/-- C4: when the key does not occur in the URL, or no `'&'` occurs in the URL at
or after the key's first occurrence, `getURLParam` returns the sentinel `"-1"`. -/
theorem getURLParam_not_found (url key : Str)
    (h : ¬ key <:+: url ∨ ∃ pos, FirstOccurrence url key pos ∧ '&' ∉ url.drop pos) :
    getURLParam url key = some "-1".toList := by
  unfold getURLParam
  rcases h with habs | ⟨pos, hfirst, hamp⟩
  · cases hf : find url key 0 with
    | none => rfl
    | some pos =>
      have := find_zero_some hf
      exact absurd (List.infix_iff_prefix_suffix.mpr
        ⟨url.drop pos, this.2.1, List.drop_suffix pos url⟩) habs
  · rw [find_zero_of_firstOccurrence hfirst]
    simp only
    rw [find_amp url pos hfirst.1, if_neg hamp]

/-- Two instances of the not-found result: a URL without the key, and a URL
whose last parameter is the key's. -/
theorem getURLParam_not_found_witness :
    getURLParam "http://host/api?key=X&format=json".toList "rt=".toList = some "-1".toList ∧
    getURLParam "http://host/api?key=X&rt=20".toList "rt=".toList = some "-1".toList :=
  ⟨getURLParam_not_found _ _ (Or.inl (by decide)),
   getURLParam_not_found _ _ (Or.inr ⟨22, by decide, by decide⟩)⟩

/-- C10: `getURLParam` raises no exception. Whenever the `substr` call is reached,
its start index `pos + key.length()` is at most `url.length()` (also after the
reduction modulo `2 ^ 64`), and the function always returns a string. -/
theorem getURLParam_no_exception (url key : Str) :
    (∀ pos endpos, find url key 0 = some pos → find url "&".toList pos = some endpos →
      pos + key.length ≤ url.length ∧ (pos + key.length) % SIZE_MOD ≤ url.length) ∧
    ∃ s, getURLParam url key = some s := by
  exact ⟨fun pos _ hf _ => ⟨(find_zero_some hf).add_length_le, start_le_length hf⟩,
    getURLParam_returns url key⟩

/-- An instance of exception freedom, with a key that holds `'&'`. -/
theorem getURLParam_no_exception_witness :
    (1 + "&rt=".toList.length ≤ "x&rt=20&stpid=456&".toList.length ∧
      (1 + "&rt=".toList.length) % SIZE_MOD ≤ "x&rt=20&stpid=456&".toList.length) ∧
    ∃ s, getURLParam "x&rt=20&stpid=456&".toList "&rt=".toList = some s :=
  ⟨(getURLParam_no_exception "x&rt=20&stpid=456&".toList "&rt=".toList).1 1 1
      (by decide) (by decide),
   (getURLParam_no_exception "x&rt=20&stpid=456&".toList "&rt=".toList).2⟩

/-- C3, as stated, fails at a key that holds `'&'`: in `x&rt=20&stpid=456&` the
key `&rt=` first occurs at index 1, a `'&'` follows it, and the text between the
key and that `'&'` is `20`; `getURLParam` returns `20&stpid=456&`. -/
theorem getURLParam_key_with_amp :
    FirstOccurrence "x&rt=20&stpid=456&".toList "&rt=".toList 1 ∧
    '&' ∈ "x&rt=20&stpid=456&".toList.drop (1 + "&rt=".toList.length) ∧
    ("x&rt=20&stpid=456&".toList.drop (1 + "&rt=".toList.length)).takeWhile
      (fun x => x != '&') = "20".toList ∧
    getURLParam "x&rt=20&stpid=456&".toList "&rt=".toList = some "20&stpid=456&".toList ∧
    getURLParam "x&rt=20&stpid=456&".toList "&rt=".toList ≠
      some (("x&rt=20&stpid=456&".toList.drop (1 + "&rt=".toList.length)).takeWhile
        (fun x => x != '&')) := by
  decide

/-- C3, amended: for every URL and every key that holds no `'&'`, if the key
occurs in the URL, first at index `pos`, and a `'&'` follows it, `getURLParam`
returns the text strictly between them: the characters from the end of the
key's first occurrence up to, but not including, the next `'&'`. -/
theorem getURLParam_key_without_amp (url key : Str) (pos : Nat)
    (hlen : url.length < SIZE_MOD) (hfirst : FirstOccurrence url key pos)
    (hkey : '&' ∉ key) (hamp : '&' ∈ url.drop (pos + key.length)) :
    getURLParam url key =
      some ((url.drop (pos + key.length)).takeWhile (fun x => x != '&')) ∧
    (∀ x ∈ (url.drop (pos + key.length)).takeWhile (fun x => x != '&'), x ≠ '&') ∧
    (url.drop (pos + key.length + ((url.drop (pos + key.length)).takeWhile
      (fun x => x != '&')).length)).head? = some '&' := by
  refine ⟨getURLParam_between hlen hfirst hkey hamp, ?_, ?_⟩
  · intro x hx
    simpa using List.mem_takeWhile_imp hx
  · have hsplit := List.takeWhile_append_dropWhile (fun x => x != '&')
      (url.drop (pos + key.length))
    have hne : (url.drop (pos + key.length)).dropWhile (fun x => x != '&') ≠ [] := by
      intro hnil
      have := List.dropWhile_eq_nil_iff.mp hnil '&' hamp
      simp at this
    have hhead := List.head_dropWhile_not (fun x => x != '&')
      (url.drop (pos + key.length)) hne
    have hd : url.drop (pos + key.length + ((url.drop (pos + key.length)).takeWhile
        (fun x => x != '&')).length)
        = (url.drop (pos + key.length)).dropWhile (fun x => x != '&') := by
      rw [← List.drop_drop]
      have h := congrArg (List.drop ((url.drop (pos + key.length)).takeWhile
        (fun x => x != '&')).length) hsplit
      rw [List.drop_left] at h
      exact h.symm
    rw [hd]
    cases hdw : (url.drop (pos + key.length)).dropWhile (fun x => x != '&') with
    | nil => exact absurd hdw hne
    | cons d rest =>
      simp only [hdw, List.head_cons] at hhead
      have : d = '&' := by simpa using hhead
      rw [this]
      rfl

/-- The amended C3 at the scenario URL and the key `rt=`, which first occurs at
index 22: the result is `20`. -/
theorem getURLParam_key_without_amp_witness :
    getURLParam scenarioURL "rt=".toList = some "20".toList :=
  (getURLParam_key_without_amp scenarioURL "rt=".toList 22
    (by decide) (by decide) (by decide) (by decide)).1.trans (by decide)

/-- C5, as stated, fails: with the prefix `start=0&` the URL holds
`rt=42&stpid=7&`, and `getURLParam` returns `0` for the key `rt=`. -/
theorem getURLParam_rt_earlier_occurrence :
    getURLParam ("start=0&".toList ++ "rt=42&stpid=7&".toList ++ "x".toList) "rt=".toList
      = some "0".toList ∧
    ¬ (getURLParam ("start=0&".toList ++ "rt=42&stpid=7&".toList ++ "x".toList) "rt=".toList
        = some "42".toList ∧
       getURLParam ("start=0&".toList ++ "rt=42&stpid=7&".toList ++ "x".toList) "stpid=".toList
        = some "7".toList) := by
  decide

/-- C5, amended: for every suffix and every prefix in which the key does not
occur, `getURLParam` on `prefix ++ "rt=42&stpid=7&" ++ suffix` returns `"42"` for
the key `"rt="` and `"7"` for the key `"stpid="`. -/
theorem getURLParam_rt_stpid (pre suf : Str)
    (hlen : (pre ++ "rt=42&stpid=7&".toList ++ suf).length < SIZE_MOD) :
    (¬ "rt=".toList <:+: pre →
      getURLParam (pre ++ "rt=42&stpid=7&".toList ++ suf) "rt=".toList = some "42".toList) ∧
    (¬ "stpid=".toList <:+: pre →
      getURLParam (pre ++ "rt=42&stpid=7&".toList ++ suf) "stpid=".toList
        = some "7".toList) := by
  constructor
  · intro hpre
    have hd : (pre ++ "rt=42&stpid=7&".toList ++ suf).drop (pre.length + "rt=".toList.length)
        = "42&stpid=7&".toList ++ suf := by
      rw [List.append_assoc, List.drop_append]; rfl
    rw [getURLParam_between hlen (firstOccurrence_rt pre suf hpre) (by decide)
      (by rw [hd]; simp [String.toList]), hd]
    rfl
  · intro hpre
    have hd : (pre ++ "rt=42&stpid=7&".toList ++ suf).drop
        (pre.length + 6 + "stpid=".toList.length) = "7&".toList ++ suf := by
      rw [List.append_assoc, Nat.add_assoc, List.drop_append]; rfl
    rw [getURLParam_between hlen (firstOccurrence_stpid pre suf hpre) (by decide)
      (by rw [hd]; simp [String.toList]), hd]
    rfl

/-- An instance with the prefix `http://host/api?key=X&` and the suffix
`format=json`. -/
theorem getURLParam_rt_stpid_witness :
    getURLParam ("http://host/api?key=X&".toList ++ "rt=42&stpid=7&".toList
      ++ "format=json".toList) "rt=".toList = some "42".toList ∧
    getURLParam ("http://host/api?key=X&".toList ++ "rt=42&stpid=7&".toList
      ++ "format=json".toList) "stpid=".toList = some "7".toList :=
  ⟨(getURLParam_rt_stpid "http://host/api?key=X&".toList "format=json".toList
      (by decide)).1 (by decide),
   (getURLParam_rt_stpid "http://host/api?key=X&".toList "format=json".toList
      (by decide)).2 (by decide)⟩

/-! ## The transfer and the read loop -/

/-- A transfer hands every chunk to the callback, which appends it. -/
theorem curl_easy_perform_eq : ∀ (chunks : List Str) (rc : Nat) (response : Str),
    curl_easy_perform chunks rc response = (rc, response ++ chunks.flatten) := by
  intro chunks
  induction chunks with
  | nil => intro rc response; simp [curl_easy_perform]
  | cons chunk rest ih =>
    intro rc response
    simp [curl_easy_perform, CURL_callback, ih]

/-- A newline inside the text is kept as it is. -/
theorem withFinalNewline_append_newline (line rest : Str) :
    withFinalNewline (line ++ '\n' :: rest) = line ++ '\n' :: withFinalNewline rest := by
  cases rest with
  | nil => simp [withFinalNewline]
  | cons a rest =>
    have h : (line ++ '\n' :: a :: rest).getLast? = (a :: rest).getLast? := by
      rw [List.getLast?_append, List.getLast?_cons_cons]
      cases hl : (a :: rest).getLast? with
      | none => simp at hl
      | some x => rfl
    unfold withFinalNewline
    rw [h]
    by_cases hx : (a :: rest).getLast? = some '\n'
    · simp [hx]
    · simp [hx]

/-- A non-empty text without a newline gets one. -/
theorem withFinalNewline_of_no_newline {l : Str} (hne : l ≠ [])
    (hall : ∀ x ∈ l, (x != '\n') = true) : withFinalNewline l = l ++ ['\n'] := by
  unfold withFinalNewline
  rw [if_neg]
  rintro (h | h)
  · exact hne h
  · obtain ⟨ys, rfl⟩ := List.getLast?_eq_some_iff.mp h
    have := hall '\n' (by simp)
    simp at this

/-- With enough iterations the read loop ends and yields the lines of the file,
each followed by a newline. -/
theorem readLines_eq : ∀ (fuel : Nat) (infile response : Str), infile.length < fuel →
    readLines fuel infile response = some (response ++ withFinalNewline infile) := by
  intro fuel
  induction fuel with
  | zero => intro infile response h; omega
  | succ fuel ih =>
    intro infile response hlen
    cases infile with
    | nil => simp [readLines, getline, withFinalNewline]
    | cons c cs =>
      have hsplit := List.takeWhile_append_dropWhile (fun x => x != '\n') (c :: cs)
      rw [readLines, getline]
      simp only
      cases hd : (c :: cs).dropWhile (fun x => x != '\n') with
      | nil =>
        have hall := List.dropWhile_eq_nil_iff.mp hd
        rw [List.takeWhile_eq_self_iff.mpr hall, List.drop_nil,
          ih [] _ (by simp only [List.length_cons, List.length_nil] at hlen ⊢; omega),
          withFinalNewline_of_no_newline (by simp) hall]
        simp [withFinalNewline]
      | cons d rest =>
        have hdn : d = '\n' := by
          have := List.head_dropWhile_not (fun x => x != '\n') (c :: cs) (by rw [hd]; simp)
          simpa [hd] using this
        subst hdn
        rw [hd] at hsplit
        have hl : rest.length < fuel := by
          have := congrArg List.length hsplit
          simp only [List.length_append, List.length_cons] at this hlen
          omega
        rw [List.drop_one, List.tail_cons, ih rest _ hl]
        congr 1
        conv_rhs => rw [← hsplit, withFinalNewline_append_newline]
        simp

/-! ## `callWebServer` -/

/-- Both branches compute a file name, from the same two parameters. -/
theorem filenames_eq (url : Str) :
    ∃ route stopid, getURLParam url "rt=".toList = some route ∧
      getURLParam url "stpid=".toList = some stopid ∧
      offlineFilename url = some (route, stopid,
        "cta-response-route-".toList ++ route ++ "-stopid-".toList ++ stopid ++ ".cta".toList) ∧
      saveFilename url = some
        ("cta-response-route-".toList ++ route ++ "-stopid-".toList ++ stopid ++ ".cta".toList) := by
  obtain ⟨route, hr⟩ := getURLParam_returns url "rt=".toList
  obtain ⟨stopid, hs⟩ := getURLParam_returns url "stpid=".toList
  refine ⟨route, stopid, hr, hs, ?_, ?_⟩
  · simp only [offlineFilename, hr, hs]
  · simp only [saveFilename, hr, hs]

/-- The `OFFLINE` build when the file cannot be opened. -/
theorem callWebServer_offline_closed {url route stopid filename : Str}
    (save : Bool) (w : World) (t : Transfer) (response : Str)
    (hname : offlineFilename url = some (route, stopid, filename))
    (hfile : w.files filename = none) :
    callWebServer true save w t url response =
      some { ret := false, response := response,
             world := { w with cout := w.cout ++ offlineDiagnostic route stopid } } := by
  simp only [callWebServer, if_true, hname, hfile]

/-- The `OFFLINE` build when the file can be opened. -/
theorem callWebServer_offline_open {url route stopid filename c : Str}
    (save : Bool) (w : World) (t : Transfer) (response : Str)
    (hname : offlineFilename url = some (route, stopid, filename))
    (hfile : w.files filename = some c) :
    callWebServer true save w t url response =
      some { ret := true, response := withFinalNewline c, world := w } := by
  simp only [callWebServer, if_true, hname, hfile,
    readLines_eq (c.length + 1) c [] (Nat.lt_succ_self _), List.nil_append]

/-- The live build: the result flag and the response after the call. -/
theorem callWebServer_live (save : Bool) (w : World) (t : Transfer) (url response : Str) :
    ∃ o, callWebServer false save w t url response = some o ∧
      (o.ret = true ↔
        t.rc1 = CURLE_OK ∧ t.rc2 = CURLE_OK ∧ t.rc3 = CURLE_OK ∧ t.rc = CURLE_OK) ∧
      (o.ret = true → o.response = response ++ t.chunks.flatten) ∧
      (o.ret = false →
        o.response = response ∨ o.response = response ++ t.chunks.flatten) := by
  obtain ⟨route, stopid, _, _, _, hsave⟩ := filenames_eq url
  unfold callWebServer
  simp only [Bool.false_eq_true, if_false, curl_easy_perform_eq, hsave]
  by_cases h : t.rc1 ≠ CURLE_OK ∨ t.rc2 ≠ CURLE_OK ∨ t.rc3 ≠ CURLE_OK
  · rw [if_pos h]
    refine ⟨_, rfl, ?_, ?_, ?_⟩
    · constructor
      · intro hf; cases hf
      · rintro ⟨h1, h2, h3, _⟩
        rcases h with h | h | h
        · exact absurd h1 h
        · exact absurd h2 h
        · exact absurd h3 h
    · intro hf; cases hf
    · intro _; exact Or.inl rfl
  · rw [if_neg h]
    have h' : t.rc1 = CURLE_OK ∧ t.rc2 = CURLE_OK ∧ t.rc3 = CURLE_OK := by
      refine ⟨?_, ?_, ?_⟩ <;> by_contra hc <;> simp [hc] at h
    by_cases hrc : t.rc ≠ CURLE_OK
    · rw [if_pos hrc]
      refine ⟨_, rfl, ?_, ?_, ?_⟩
      · constructor
        · intro hf; cases hf
        · rintro ⟨_, _, _, h4⟩; exact absurd h4 hrc
      · intro hf; cases hf
      · intro _; exact Or.inr rfl
    · rw [if_neg hrc]
      have hrc' : t.rc = CURLE_OK := by_contra hrc
      cases save with
      | false =>
        refine ⟨_, rfl, ?_, fun _ => rfl, ?_⟩
        · exact ⟨fun _ => ⟨h'.1, h'.2.1, h'.2.2, hrc'⟩, fun _ => rfl⟩
        · intro hf; cases hf
      | true =>
        simp only [if_true]
        by_cases hw : w.writable ("cta-response-route-".toList ++ route ++ "-stopid-".toList
            ++ stopid ++ ".cta".toList) = true
        · rw [if_pos hw]
          refine ⟨_, rfl, ?_, fun _ => rfl, ?_⟩
          · exact ⟨fun _ => ⟨h'.1, h'.2.1, h'.2.2, hrc'⟩, fun _ => rfl⟩
          · intro hf; cases hf
        · rw [if_neg hw]
          refine ⟨_, rfl, ?_, fun _ => rfl, ?_⟩
          · exact ⟨fun _ => ⟨h'.1, h'.2.1, h'.2.2, hrc'⟩, fun _ => rfl⟩
          · intro hf; cases hf

/-- C1, at a response string that is not empty before the call: the live call
succeeds, the server delivers `new`, and the response is `oldnew`, the delivered
data appended to what the string held before. -/
theorem callWebServer_live_keeps_prior_content :
    (callWebServer false false emptyWorld (okTransfer ["new".toList]) scenarioURL
        "old".toList).map (fun o => (o.ret, o.response))
      = some (true, "oldnew".toList) ∧
    "oldnew".toList ≠ ["new".toList].flatten := by
  decide

/-- C2, at a transfer that delivers the chunk `par` and then reports the error
code 18 (`CURLE_PARTIAL_FILE`): the live call returns false and the response is `oldpar`, not `old`. -/
theorem callWebServer_live_failure_changes_response :
    (callWebServer false false emptyWorld
        { rc1 := CURLE_OK, rc2 := CURLE_OK, rc3 := CURLE_OK, chunks := ["par".toList], rc := 18 }
        scenarioURL "old".toList).map (fun o => (o.ret, o.response))
      = some (false, "oldpar".toList) ∧
    "oldpar".toList ≠ "old".toList := by
  decide

/-- C6: in the `OFFLINE` build, when the file derived from the URL can be opened
with content `c`, `callWebServer` returns true and replaces the response by the
lines of `c`, each followed by a newline: `c` itself when `c` is empty or ends in
a newline, `c` followed by one newline otherwise. -/
theorem callWebServer_offline_replay (save : Bool) (w : World) (t : Transfer)
    (url response route stopid filename c : Str)
    (hname : offlineFilename url = some (route, stopid, filename))
    (hfile : w.files filename = some c) :
    ∃ o, callWebServer true save w t url response = some o ∧ o.ret = true ∧
      o.response = withFinalNewline c ∧
      (c = [] ∨ c.getLast? = some '\n' → o.response = c) ∧
      (¬ (c = [] ∨ c.getLast? = some '\n') → o.response = c ++ ['\n']) := by
  refine ⟨_, callWebServer_offline_open save w t response hname hfile, rfl, rfl, ?_, ?_⟩
  · intro h; simp only [withFinalNewline, if_pos h]
  · intro h; simp only [withFinalNewline, if_neg h]

/-- The replay scenario of the specification: the file
`cta-response-route-20-stopid-456.cta` holds one line of JSON, and the call
yields true and that line. -/
theorem callWebServer_offline_replay_witness :
    ∃ o, callWebServer true false scenarioWorld (okTransfer []) scenarioURL "old".toList
        = some o ∧ o.ret = true ∧ o.response = "\x7b\"a\":1\x7d\n".toList := by
  obtain ⟨o, ho, hret, _, hres, _⟩ :=
    callWebServer_offline_replay false scenarioWorld (okTransfer []) scenarioURL "old".toList
      "20".toList "456".toList scenarioFile "\x7b\"a\":1\x7d\n".toList (by decide) (by decide)
  exact ⟨o, ho, hret, hres (by decide)⟩

/-- C7, as stated, fails: in the `OFFLINE` build with no file on disk the call
returns false, the diagnostic goes to `cout`, and `cerr` stays empty, so it
holds neither the route `20` nor the stop `456`. -/
theorem callWebServer_offline_cerr_untouched :
    (callWebServer true false emptyWorld (okTransfer []) scenarioURL "old".toList).map
        (fun o => (o.ret, o.response, o.world.cout, o.world.cerr))
      = some (false, "old".toList, offlineDiagnostic "20".toList "456".toList, []) ∧
    ¬ ("20".toList <:+: ([] : Str) ∧ "456".toList <:+: ([] : Str)) := by
  decide

/-- C7, amended: in the `OFFLINE` build `callWebServer` returns false exactly when
the file derived from the URL cannot be opened; in that case the response is
left as it was, and a diagnostic that holds the extracted route and stop values
is appended to the standard output `cout`, while `cerr` is left as it was. -/
theorem callWebServer_offline_missing_file (save : Bool) (w : World) (t : Transfer)
    (url response : Str) :
    ∃ route stopid filename o,
      getURLParam url "rt=".toList = some route ∧
      getURLParam url "stpid=".toList = some stopid ∧
      offlineFilename url = some (route, stopid, filename) ∧
      callWebServer true save w t url response = some o ∧
      (o.ret = false ↔ w.files filename = none) ∧
      (w.files filename = none →
        o.response = response ∧
        o.world.cout = w.cout ++ offlineDiagnostic route stopid ∧
        o.world.cerr = w.cerr ∧
        ("rt=".toList ++ route ++ ",stpid=".toList ++ stopid) <:+:
          offlineDiagnostic route stopid) := by
  obtain ⟨route, stopid, hr, hs, hname, _⟩ := filenames_eq url
  have hdiag : ("rt=".toList ++ route ++ ",stpid=".toList ++ stopid) <:+:
      offlineDiagnostic route stopid := by
    refine ⟨"**ERROR: in callWebServer, we are running offline...".toList ++ ['\n']
        ++ "**ERROR: you called with ".toList,
      ['\n'] ++ ("**ERROR: no data is available for this route/stop".toList ++ ['\n']), ?_⟩
    have : "**ERROR: you called with rt=".toList
        = "**ERROR: you called with ".toList ++ "rt=".toList := by decide
    simp only [offlineDiagnostic, this, List.append_assoc]
  cases hfile : w.files ("cta-response-route-".toList ++ route ++ "-stopid-".toList
      ++ stopid ++ ".cta".toList) with
  | none =>
    refine ⟨route, stopid, _, _, hr, hs, hname,
      callWebServer_offline_closed save w t response hname hfile, ?_, ?_⟩
    · exact ⟨fun _ => hfile, fun _ => rfl⟩
    · intro _; exact ⟨rfl, rfl, rfl, hdiag⟩
  | some c =>
    refine ⟨route, stopid, _, _, hr, hs, hname,
      callWebServer_offline_open save w t response hname hfile, ?_, ?_⟩
    · constructor
      · intro hf; cases hf
      · intro hf; rw [hfile] at hf; cases hf
    · intro hf; rw [hfile] at hf; cases hf

/-- The missing-file scenario of the specification: the scenario URL with no
file on disk. -/
theorem callWebServer_offline_missing_file_witness :
    ∃ o, callWebServer true false emptyWorld (okTransfer []) scenarioURL "old".toList = some o ∧
      o.ret = false ∧ o.response = "old".toList ∧ o.world.cerr = [] := by
  obtain ⟨_, _, _, o, _, _, _, ho, hiff, hmiss⟩ :=
    callWebServer_offline_missing_file false emptyWorld (okTransfer []) scenarioURL "old".toList
  exact ⟨o, ho, hiff.mpr rfl, (hmiss rfl).1, (hmiss rfl).2.2.1⟩

/-- C8: round trip. When a live call under `SAVE_ONLINE_RESPONSES` succeeds with
the response `r` and saves it, a later `OFFLINE` call with the same URL in the
resulting world returns true, and its response is `r` followed by exactly one
newline. -/
theorem callWebServer_round_trip (w : World) (t t' : Transfer) (save' : Bool)
    (url response response' filename : Str) (o : Outcome)
    (hlive : callWebServer false true w t url response = some o) (hret : o.ret = true)
    (hname : saveFilename url = some filename) (hsaved : w.writable filename = true) :
    ∃ o', callWebServer true save' o.world t' url response' = some o' ∧ o'.ret = true ∧
      o'.response = o.response ++ ['\n'] := by
  obtain ⟨route, stopid, _, _, hoff, hsave⟩ := filenames_eq url
  rw [hsave] at hname
  have hfn := Option.some.inj hname
  subst hfn
  unfold callWebServer at hlive
  simp only [Bool.false_eq_true, if_false, if_true, curl_easy_perform_eq, hsave, hsaved]
    at hlive
  split_ifs at hlive with h1 h2
  · rw [← Option.some.inj hlive] at hret; cases hret
  · rw [← Option.some.inj hlive] at hret; cases hret
  · have ho := Option.some.inj hlive
    subst ho
    refine ⟨_, callWebServer_offline_open save' _ t' response' hoff
      (c := (response ++ t.chunks.flatten) ++ ['\n']) (by simp), rfl, ?_⟩
    simp [withFinalNewline]

/-- A round trip at a concrete input: a body that arrives in two chunks is
saved and replayed with one newline added. -/
theorem callWebServer_round_trip_witness :
    ∃ o o', callWebServer false true emptyWorld
          (okTransfer ["\x7b\"a\"".toList, ":1\x7d".toList]) scenarioURL [] = some o ∧
      callWebServer true false o.world (okTransfer []) scenarioURL "old".toList = some o' ∧
      o'.ret = true ∧ o'.response = "\x7b\"a\":1\x7d\n".toList := by
  obtain ⟨o, ho, hiff, hresp, _⟩ := callWebServer_live true emptyWorld
    (okTransfer ["\x7b\"a\"".toList, ":1\x7d".toList]) scenarioURL []
  have hret : o.ret = true := hiff.mpr ⟨rfl, rfl, rfl, rfl⟩
  obtain ⟨o', ho', hret', hresp'⟩ := callWebServer_round_trip emptyWorld
    (okTransfer ["\x7b\"a\"".toList, ":1\x7d".toList]) (okTransfer []) false scenarioURL []
    "old".toList scenarioFile o ho hret (by decide) rfl
  refine ⟨o, o', ho, ho', hret', ?_⟩
  rw [hresp', hresp hret]
  decide

/-- C9: for every URL the file name derived for writing equals the file name
derived for reading, and both are `cta-response-route-`, the value of `rt=`,
`-stopid-`, the value of `stpid=`, and `.cta`, in this order. -/
theorem cache_filename_write_eq_read (url : Str) :
    (offlineFilename url).map (fun x => x.2.2) = saveFilename url ∧
    ∃ route stopid, getURLParam url "rt=".toList = some route ∧
      getURLParam url "stpid=".toList = some stopid ∧
      saveFilename url = some
        ("cta-response-route-".toList ++ route ++ "-stopid-".toList ++ stopid ++ ".cta".toList) := by
  obtain ⟨route, stopid, hr, hs, hoff, hsave⟩ := filenames_eq url
  exact ⟨by rw [hoff, hsave]; rfl, route, stopid, hr, hs, hsave⟩

end CurlUtil
